import Mathlib

/-!
Verification of the braille-translator cell codec, segmenter, translation
orchestrator and rasterizer/recognizer.

Modelling conventions (shallow embedding of the Python sources):
* a Python string is a list of Unicode code points, `List Nat`;
* a packed bit string (characters '0'/'1') is a `List Bool`, `true` = '1';
* Python integer division `//` and `%` on naturals are Lean `/` and `%`;
* a Python function that can raise is `Except Unit _`;
* the external liblouis CLI (`_run_cli`) is an oracle parameter.

Sources embedded: `src/braille_translator/translator.py` (the
`BrailleTranslator` pipeline) and `src/braille_translator/translator_v5.py`
(the v5 codec helpers), named below with the source function names.
-/

namespace Braille

/-- Binary digits of `n`, least significant bit first, no leading zeros
(`natBitsLSB 0 = []`).  Fuel-based so that the definition is structurally
recursive; fuel `n` suffices because the argument halves at every step. -/
def natBitsLSBAux : Nat → Nat → List Bool
  | 0, _ => []
  | fuel + 1, n => if n = 0 then [] else decide (n % 2 = 1) :: natBitsLSBAux fuel (n / 2)

def natBitsLSB (n : Nat) : List Bool :=
  natBitsLSBAux n n

/-- Python `f"{n:06b}"` from `unicode_to_binary`: the binary digits of `n`,
most significant first, left-padded with '0' to a minimum width of 6.
Values of 7 or more bits keep all their digits (the width is a minimum). -/
def format06b (n : Nat) : List Bool :=
  let b := natBitsLSB n
  (b ++ List.replicate (6 - b.length) false).reverse

/-- translator.py `unicode_to_binary` (lines 51-52): each character in the
braille block U+2800..U+28FF contributes `f"{ord(ch)-0x2800:06b}"`, every
other character contributes "000000". -/
def unicode_to_binary (s : List Nat) : List Bool :=
  s.flatMap fun c =>
    if 0x2800 ≤ c ∧ c ≤ 0x28FF then format06b (c - 0x2800) else List.replicate 6 false

/-- Python `int(chunk, 2)` on a '0'/'1' string rendered as `List Bool`:
value of the bits, most significant first. -/
def bitsMSBToNat (l : List Bool) : Nat :=
  l.foldl (fun a b => 2 * a + (if b then 1 else 0)) 0

/-- The decoding comprehension of translator.py `binary_to_unicode`
(line 68): slices of six bits, each mapped to `chr(0x2800 + int(slice, 2))`.
The caller has already checked the length is a multiple of 6, so the
catch-all (a trailing partial slice) is unreachable there. -/
def decodeChunks : List Bool → List Nat
  | b1 :: b2 :: b3 :: b4 :: b5 :: b6 :: rest =>
      (0x2800 + bitsMSBToNat [b1, b2, b3, b4, b5, b6]) :: decodeChunks rest
  | _ => []

/-- translator.py `binary_to_unicode` (lines 65-68): raises `ValueError`
unless the length is a multiple of 6, otherwise decodes six bits per cell. -/
def binary_to_unicode (l : List Bool) : Except Unit (List Nat) :=
  if l.length % 6 = 0 then .ok (decodeChunks l) else .error ()

/-- Python `int(chunk, 2)` on a six-character slice of code points:
fails (ValueError) if any character is not '0' (48) or '1' (49). -/
def parseBinChunk (chunk : List Nat) : Except Unit Nat :=
  if chunk.all fun c => c = 48 || c = 49 then
    .ok (chunk.foldl (fun a c => 2 * a + (c - 48)) 0)
  else
    .error ()

/-- The decoding comprehension of translator_v5.py `binary_to_unicode`
(line 208), over code points. -/
def decodeChunksV5 : List Nat → Except Unit (List Nat)
  | c1 :: c2 :: c3 :: c4 :: c5 :: c6 :: rest => do
      let v ← parseBinChunk [c1, c2, c3, c4, c5, c6]
      let r ← decodeChunksV5 rest
      .ok ((0x2800 + v) :: r)
  | _ => .ok []

/-- translator_v5.py `binary_to_unicode` (lines 203-209): empty input gives
"", whitespace (' ', '\n', '\t') is removed, then the cleaned length must be
a multiple of 6 or a `ValueError` is raised. -/
def binary_to_unicode_v5 (s : List Nat) : Except Unit (List Nat) :=
  if s = [] then .ok [] else
  let cleaned := s.filter fun c => !decide (c = 32 || c = 10 || c = 9)
  if cleaned.length % 6 = 0 then decodeChunksV5 cleaned else .error ()

theorem format06b_spec :
    ∀ v < 64, (format06b v).length = 6 ∧ bitsMSBToNat (format06b v) = v := by
  decide

theorem decodeChunks_cons6 (l rest : List Bool) (h : l.length = 6) :
    decodeChunks (l ++ rest) = (0x2800 + bitsMSBToNat l) :: decodeChunks rest := by
  rcases l with _ | ⟨b1, _ | ⟨b2, _ | ⟨b3, _ | ⟨b4, _ | ⟨b5, _ | ⟨b6, tail⟩⟩⟩⟩⟩⟩ <;>
    simp only [List.length] at h <;> try omega
  have htail : tail = [] := by
    have : tail.length = 0 := by omega
    exact List.eq_nil_of_length_eq_zero this
  subst htail
  rfl

/-- Core round trip: on a string whose braille-block characters are all
six-dot (value below 64), encoding is six bits per character and decoding
maps every braille character to itself and every other character to the
blank cell U+2800. -/
theorem u2b_core (s : List Nat)
    (hs : ∀ c ∈ s, 0x2800 ≤ c → c ≤ 0x28FF → c ≤ 0x283F) :
    (unicode_to_binary s).length = 6 * s.length ∧
      decodeChunks (unicode_to_binary s) =
        s.map fun c => if 0x2800 ≤ c ∧ c ≤ 0x28FF then c else 0x2800 := by
  induction s with
  | nil => exact ⟨rfl, rfl⟩
  | cons c t ih =>
      have hc := hs c (List.mem_cons_self c t)
      have ht := ih fun d hd => hs d (List.mem_cons_of_mem c hd)
      have hu : unicode_to_binary (c :: t) =
          (if 0x2800 ≤ c ∧ c ≤ 0x28FF then format06b (c - 0x2800)
           else List.replicate 6 false) ++ unicode_to_binary t := rfl
      by_cases hbr : 0x2800 ≤ c ∧ c ≤ 0x28FF
      · have hv : c - 0x2800 < 64 := by
          have := hc hbr.1 hbr.2
          omega
        have hspec := format06b_spec (c - 0x2800) hv
        constructor
        · rw [hu, if_pos hbr, List.length_append, hspec.1, ht.1]
          simp [List.length_cons]
          ring
        · rw [hu, if_pos hbr, decodeChunks_cons6 _ _ hspec.1, hspec.2, ht.2]
          have : 0x2800 + (c - 0x2800) = c := by omega
          rw [this]
          simp [hbr]
      · constructor
        · rw [hu, if_neg hbr, List.length_append, List.length_replicate, ht.1]
          simp [List.length_cons]
          ring
        · rw [hu, if_neg hbr, decodeChunks_cons6 _ _ (by simp), ht.2]
          simp [hbr]
          rfl

/-- C1: for every valid CellSequence (each cell a character of
U+2800..U+283F, value 0..63), packing to a bit string with
`unicode_to_binary` and decoding with `binary_to_unicode` is the
identity. -/
theorem C1_bits_cells_roundtrip (x : List Nat)
    (hx : ∀ c ∈ x, 0x2800 ≤ c ∧ c ≤ 0x283F) :
    binary_to_unicode (unicode_to_binary x) = Except.ok x := by
  have hcore := u2b_core x fun c hc _ _ => (hx c hc).2
  have hlen : (unicode_to_binary x).length % 6 = 0 := by
    rw [hcore.1]
    omega
  rw [binary_to_unicode, if_pos hlen, hcore.2]
  have hmap : (x.map fun c => if 0x2800 ≤ c ∧ c ≤ 0x28FF then c else 0x2800) = x.map id := by
    apply List.map_congr_left
    intro c hc
    have := hx c hc
    rw [if_pos ⟨this.1, by omega⟩]
    rfl
  rw [hmap, List.map_id]

/-- Witness for C1 at the concrete CellSequence ⠁⠿⠀ (U+2801, U+283F, U+2800). -/
theorem C1_bits_cells_roundtrip_witness :
    (∀ c ∈ [0x2801, 0x283F, 0x2800], 0x2800 ≤ c ∧ c ≤ 0x283F) ∧
      binary_to_unicode (unicode_to_binary [0x2801, 0x283F, 0x2800]) =
        Except.ok [0x2801, 0x283F, 0x2800] :=
  ⟨by decide, C1_bits_cells_roundtrip _ (by decide)⟩

/-- C4: a bit string whose length is not a multiple of 6 makes both
implementations of `binary_to_unicode` raise (translator.py checks the raw
length; translator_v5.py checks the whitespace-cleaned length, which for a
pure bit string is the raw length), producing no partial output. -/
theorem C4_malformed_bits_fail (l : List Bool) (s : List Nat)
    (hl : l.length % 6 ≠ 0)
    (hs : ∀ c ∈ s, c = 48 ∨ c = 49) (hslen : s.length % 6 ≠ 0) :
    binary_to_unicode l = Except.error () ∧
      binary_to_unicode_v5 s = Except.error () := by
  constructor
  · rw [binary_to_unicode, if_neg hl]
  · have hne : s ≠ [] := by
      intro h
      rw [h] at hslen
      simp at hslen
    have hfilter : (s.filter fun c => !decide (c = 32 || c = 10 || c = 9)) = s := by
      apply List.filter_eq_self.2
      intro c hc
      rcases hs c hc with h | h <;> simp [h]
    rw [binary_to_unicode_v5, if_neg hne]
    simp only [hfilter]
    rw [if_neg hslen]

/-- Witness for C4: the bit string "101" (length 3) in both encodings. -/
theorem C4_malformed_bits_fail_witness :
    ([true, false, true].length % 6 ≠ 0 ∧
      (∀ c ∈ [49, 48, 49], c = 48 ∨ c = 49) ∧ [49, 48, 49].length % 6 ≠ 0) ∧
      binary_to_unicode [true, false, true] = Except.error () ∧
        binary_to_unicode_v5 [49, 48, 49] = Except.error () :=
  ⟨by decide, C4_malformed_bits_fail _ _ (by decide) (by decide) (by decide)⟩

/-- Python `str.isspace` on a code point (the whitespace classes used by
`str.split()` with no argument); the point-number strings generated by the
codec only ever contain the plain space 32. -/
def isSpacePy (c : Nat) : Bool :=
  decide (c = 32 ∨ (9 ≤ c ∧ c ≤ 13) ∨ (28 ≤ c ∧ c ≤ 31) ∨ c = 133 ∨ c = 160 ∨
    c = 0x1680 ∨ (0x2000 ≤ c ∧ c ≤ 0x200A) ∨ c = 0x2028 ∨ c = 0x2029 ∨
    c = 0x202F ∨ c = 0x205F ∨ c = 0x3000)

/-- Python `s.split()` with no argument: split on runs of whitespace,
dropping empty tokens.  The accumulator holds the current token reversed. -/
def pySplitWSAux : List Nat → List Nat → List (List Nat)
  | [], acc => if acc = [] then [] else [acc.reverse]
  | c :: rest, acc =>
      if isSpacePy c then
        if acc = [] then pySplitWSAux rest [] else acc.reverse :: pySplitWSAux rest []
      else pySplitWSAux rest (c :: acc)

def pySplitWS (s : List Nat) : List (List Nat) :=
  pySplitWSAux s []

/-- Python `s.split(sep)` for a one-character separator: empty tokens are
kept and the result always has at least one token. -/
def splitOnSep (sep : Nat) : List Nat → List (List Nat)
  | [] => [[]]
  | c :: rest =>
      if c = sep then [] :: splitOnSep sep rest
      else
        match splitOnSep sep rest with
        | t :: ts => (c :: t) :: ts
        | [] => [[c]]

/-- Python `sep.join(parts)`. -/
def joinSep (sep : List Nat) : List (List Nat) → List Nat
  | [] => []
  | [x] => x
  | x :: xs => x ++ sep ++ joinSep sep xs

/-- translator.py `unicode_to_dots` (line 59): the dot-number digits of a
cell value, `[str(i + 1) for i in range(6) if code & (1 << i)]`, each a
one-character string ('1'..'6' are code points 49..54). -/
def dotsList (code : Nat) : List (List Nat) :=
  (List.range 6).filterMap fun i =>
    if code &&& (1 <<< i) ≠ 0 then some [49 + i] else none

/-- translator.py `unicode_to_dots` (line 60): `"-".join(dots)` for a cell
with dots, or the token "0" (code point 48) for the all-zero cell. -/
def encodeToken (v : Nat) : List Nat :=
  let dots := dotsList v
  if dots = [] then [48] else joinSep [45] dots

/-- translator.py `unicode_to_dots` (lines 56-62), one part per character:
braille-block characters render their dot numbers, all others render "0". -/
def dotsPart (c : Nat) : List Nat :=
  if 0x2800 ≤ c ∧ c ≤ 0x28FF then encodeToken (c - 0x2800) else [48]

/-- translator.py `unicode_to_dots` (lines 54-63): space-joined parts. -/
def unicode_to_dots (s : List Nat) : List Nat :=
  joinSep [32] (s.map dotsPart)

/-- Python `digit_str.isdigit()`: nonempty and all characters decimal digits
(modelled over ASCII digits; the tokens the codec generates are ASCII). -/
def pyIsDigit (t : List Nat) : Bool :=
  !t.isEmpty && t.all fun c => decide (48 ≤ c ∧ c ≤ 57)

/-- Python `int(digit_str)` on a decimal-digit string. -/
def decVal (t : List Nat) : Nat :=
  t.foldl (fun a c => 10 * a + (c - 48)) 0

/-- translator_v5.py `dots_to_unicode` (lines 219-224): fold over the
hyphen-separated pieces of one token; a piece that is a digit string with
value 1..6 sets the corresponding bit, every other piece is ignored. -/
def tokenValue (t : List Nat) : Nat :=
  (splitOnSep 45 t).foldl
    (fun v p =>
      if pyIsDigit p then
        let d := decVal p
        if 1 ≤ d ∧ d ≤ 6 then v ||| (1 <<< (d - 1)) else v
      else v)
    0

/-- translator_v5.py `dots_to_unicode` (lines 215-225), one cell per token:
the token "0" (or an empty token) maps to the blank cell U+2800. -/
def tokenCell (t : List Nat) : Nat :=
  if t = [48] ∨ t = [] then 0x2800 else 0x2800 + tokenValue t

/-- translator_v5.py `dots_to_unicode` (lines 211-226): empty input gives
"", otherwise one cell per whitespace-separated token. -/
def dots_to_unicode (s : List Nat) : List Nat :=
  if s = [] then [] else (pySplitWS s).map tokenCell

theorem encodeToken_spec :
    ∀ v < 64, tokenCell (encodeToken v) = 0x2800 + v ∧ encodeToken v ≠ [] ∧
      ((encodeToken v).all fun ch => !isSpacePy ch) = true := by
  decide

theorem pySplitWSAux_token (t : List Nat) (ht : ∀ c ∈ t, isSpacePy c = false) :
    ∀ s acc, pySplitWSAux (t ++ s) acc = pySplitWSAux s (t.reverse ++ acc) := by
  induction t with
  | nil => intro s acc; rfl
  | cons c t ih =>
      intro s acc
      have hc : isSpacePy c = false := ht c (List.mem_cons_self c t)
      have ht' : ∀ d ∈ t, isSpacePy d = false := fun d hd => ht d (List.mem_cons_of_mem c hd)
      show pySplitWSAux (c :: (t ++ s)) acc = _
      rw [pySplitWSAux, hc]
      simp only [Bool.false_eq_true, if_false]
      rw [ih ht' s (c :: acc)]
      simp [List.append_assoc]

theorem pySplitWS_joinSep (parts : List (List Nat))
    (h1 : ∀ p ∈ parts, p ≠ [])
    (h2 : ∀ p ∈ parts, ∀ c ∈ p, isSpacePy c = false) :
    pySplitWS (joinSep [32] parts) = parts := by
  induction parts with
  | nil => rfl
  | cons p ps ih =>
      have hp1 : p ≠ [] := h1 p (List.mem_cons_self p ps)
      have hp2 : ∀ c ∈ p, isSpacePy c = false := h2 p (List.mem_cons_self p ps)
      cases ps with
      | nil =>
          show pySplitWSAux (joinSep [32] [p]) [] = [p]
          have hJ : joinSep [32] [p] = p ++ [] := by simp [joinSep]
          rw [hJ, pySplitWSAux_token p hp2 [] []]
          simp [pySplitWSAux, hp1]
      | cons q qs =>
          have hJ : joinSep [32] (p :: q :: qs) = p ++ (32 :: joinSep [32] (q :: qs)) := by
            show (p ++ [32]) ++ joinSep [32] (q :: qs) = _
            rw [List.append_assoc]
            rfl
          show pySplitWSAux (joinSep [32] (p :: q :: qs)) [] = p :: q :: qs
          rw [hJ, pySplitWSAux_token p hp2 _ []]
          have ihq := ih (fun r hr => h1 r (List.mem_cons_of_mem p hr))
            (fun r hr => h2 r (List.mem_cons_of_mem p hr))
          show pySplitWSAux (32 :: joinSep [32] (q :: qs)) (p.reverse ++ []) = p :: q :: qs
          rw [pySplitWSAux]
          have h32 : isSpacePy 32 = true := by decide
          rw [h32]
          have hpr : ¬(p.reverse ++ [] = []) := by simp [hp1]
          simp only [if_true, if_neg hpr]
          rw [show pySplitWSAux (joinSep [32] (q :: qs)) [] =
            pySplitWS (joinSep [32] (q :: qs)) from rfl, ihq]
          simp

/-- C8: for every valid CellSequence (cells U+2800..U+283F), rendering to
point numbers with `unicode_to_dots` and parsing back with
`dots_to_unicode` is the identity. -/
theorem C8_point_numbers_roundtrip (x : List Nat)
    (hx : ∀ c ∈ x, 0x2800 ≤ c ∧ c ≤ 0x283F) :
    dots_to_unicode (unicode_to_dots x) = x := by
  cases x with
  | nil => rfl
  | cons c0 t0 =>
      set x := c0 :: t0 with hxdef
      have hpart : ∀ d ∈ x, dotsPart d = encodeToken (d - 0x2800) ∧
          tokenCell (dotsPart d) = d := by
        intro d hd
        have hdr := hx d hd
        have hbr : 0x2800 ≤ d ∧ d ≤ 0x28FF := ⟨hdr.1, by omega⟩
        have hv : d - 0x2800 < 64 := by omega
        have hspec := encodeToken_spec (d - 0x2800) hv
        refine ⟨by rw [dotsPart, if_pos hbr], ?_⟩
        rw [dotsPart, if_pos hbr, hspec.1]
        omega
      have hne : ∀ p ∈ x.map dotsPart, p ≠ [] := by
        intro p hp
        obtain ⟨d, hd, rfl⟩ := List.mem_map.1 hp
        rw [(hpart d hd).1]
        have hdr := hx d hd
        exact (encodeToken_spec (d - 0x2800) (by omega)).2.1
      have hns : ∀ p ∈ x.map dotsPart, ∀ ch ∈ p, isSpacePy ch = false := by
        intro p hp ch hch
        obtain ⟨d, hd, rfl⟩ := List.mem_map.1 hp
        have hdr := hx d hd
        have := (encodeToken_spec (d - 0x2800) (by omega)).2.2
        rw [(hpart d hd).1] at hch
        have := (List.all_eq_true.1 this) ch hch
        simpa using this
      have hsplit := pySplitWS_joinSep (x.map dotsPart) hne hns
      have hjoin_ne : unicode_to_dots x ≠ [] := by
        rw [unicode_to_dots, hxdef]
        have h0 : dotsPart c0 ≠ [] :=
          hne _ (List.mem_map_of_mem dotsPart (List.mem_cons_self c0 t0))
        simp only [List.map_cons]
        cases ht : t0.map dotsPart with
        | nil => simpa [joinSep] using h0
        | cons q qs =>
            show (dotsPart c0 ++ [32]) ++ joinSep [32] (q :: qs) ≠ []
            intro hcontra
            have := (List.append_eq_nil.1 hcontra).1
            have := (List.append_eq_nil.1 this).1
            exact h0 this
      rw [dots_to_unicode, if_neg hjoin_ne, unicode_to_dots, hsplit, List.map_map]
      have : (x.map (tokenCell ∘ dotsPart)) = x.map id := by
        apply List.map_congr_left
        intro d hd
        exact (hpart d hd).2
      rw [this, List.map_id]

/-- Witness for C8 at the concrete CellSequence ⠀⠕⠿. -/
theorem C8_point_numbers_roundtrip_witness :
    (∀ c ∈ [0x2800, 0x2815, 0x283F], 0x2800 ≤ c ∧ c ≤ 0x283F) ∧
      dots_to_unicode (unicode_to_dots [0x2800, 0x2815, 0x283F]) =
        [0x2800, 0x2815, 0x283F] :=
  ⟨by decide, C8_point_numbers_roundtrip _ (by decide)⟩

/-- C9 counterexample: `dots_to_unicode` does not fail on an out-of-range
dot number or malformed separators; "7" silently becomes the blank cell and
"1--7" (empty piece, out-of-range digit) becomes the dot-1 cell. -/
theorem C9_counterexample :
    dots_to_unicode [55] = [0x2800] ∧ dots_to_unicode [49, 45, 45, 55] = [0x2801] := by
  constructor <;> rfl

theorem tokenValue_lt (t : List Nat) : tokenValue t < 64 := by
  rw [tokenValue]
  generalize splitOnSep 45 t = pieces
  have : ∀ (l : List (List Nat)) (v : Nat), v < 64 →
      (l.foldl (fun v p =>
        if pyIsDigit p then
          let d := decVal p
          if 1 ≤ d ∧ d ≤ 6 then v ||| (1 <<< (d - 1)) else v
        else v) v) < 64 := by
    intro l
    induction l with
    | nil => intro v hv; exact hv
    | cons p ps ih =>
        intro v hv
        apply ih
        by_cases hd : pyIsDigit p
        · simp only [hd, if_true]
          by_cases hr : 1 ≤ decVal p ∧ decVal p ≤ 6
          · simp only [hr, if_pos]
            have h1 : (1 <<< (decVal p - 1)) = 2 ^ (decVal p - 1) := by
              rw [Nat.shiftLeft_eq, one_mul]
            rw [h1]
            have h2 : (2 : Nat) ^ (decVal p - 1) < 2 ^ 6 :=
              Nat.pow_lt_pow_right (by omega) (by omega)
            exact Nat.or_lt_two_pow (n := 6) hv h2
          · simpa [hr] using hv
        · simpa [hd] using hv
  exact this pieces 0 (by omega)

/-- C9 amended: `dots_to_unicode` never raises; it is total, producing one
cell per whitespace-separated token (out-of-range dot numbers and malformed
pieces are silently ignored), and every produced cell is a valid six-dot
cell in U+2800..U+283F. -/
theorem C9_dots_malformed_amended (s : List Nat) :
    (dots_to_unicode s).length = (pySplitWS s).length ∧
      ∀ c ∈ dots_to_unicode s, 0x2800 ≤ c ∧ c ≤ 0x283F := by
  by_cases hs : s = []
  · subst hs
    exact ⟨rfl, by intro c hc; simp [dots_to_unicode] at hc⟩
  · rw [dots_to_unicode, if_neg hs]
    refine ⟨List.length_map _ _, ?_⟩
    intro c hc
    obtain ⟨t, _, rfl⟩ := List.mem_map.1 hc
    rw [tokenCell]
    by_cases h0 : t = [48] ∨ t = []
    · rw [if_pos h0]; omega
    · rw [if_neg h0]
      have := tokenValue_lt t
      omega

/-- C10 counterexample: `unicode_to_binary` is not six bits per character
on arbitrary strings; the eight-dot braille character U+2840 (value 64)
renders as `f"{64:06b}" = "1000000"`, seven bits. -/
theorem C10_counterexample :
    (unicode_to_binary [0x2840]).length = 7 ∧
      (unicode_to_binary [0x2840]).length ≠ 6 * [0x2840].length := by
  constructor <;> decide

/-- C10 amended: on strings whose braille-block characters are all six-dot
(U+2800..U+283F) — which covers spaces and the private-use language-switch
markers U+E000..U+E002, both outside the braille block — the output of
`unicode_to_binary` has length exactly `6 * len(s)`, every non-braille
character is encoded as "000000", and decoding with `binary_to_unicode`
replaces every non-braille character with the blank cell U+2800 (markers
are not preserved by the bit format).  For braille characters of value 64
or more the encoding is wider than six bits and the length law fails. -/
theorem C10_bits_total_amended (s : List Nat)
    (hs : ∀ c ∈ s, 0x2800 ≤ c → c ≤ 0x28FF → c ≤ 0x283F) :
    (unicode_to_binary s).length = 6 * s.length ∧
      (∀ c ∈ s, ¬(0x2800 ≤ c ∧ c ≤ 0x28FF) →
        (unicode_to_binary [c]) = List.replicate 6 false) ∧
      binary_to_unicode (unicode_to_binary s) =
        Except.ok (s.map fun c => if 0x2800 ≤ c ∧ c ≤ 0x28FF then c else 0x2800) := by
  have hcore := u2b_core s hs
  refine ⟨hcore.1, ?_, ?_⟩
  · intro c _ hc
    show (if 0x2800 ≤ c ∧ c ≤ 0x28FF then format06b (c - 0x2800)
      else List.replicate 6 false) ++ [] = List.replicate 6 false
    rw [if_neg hc, List.append_nil]
  · have hlen : (unicode_to_binary s).length % 6 = 0 := by
      rw [hcore.1]; omega
    rw [binary_to_unicode, if_pos hlen, hcore.2]

/-- Witness for C10 amended: one braille cell, a letter 'A', and the
language-switch marker U+E000. -/
theorem C10_bits_total_amended_witness :
    (∀ c ∈ [0x2801, 65, 0xE000], 0x2800 ≤ c → c ≤ 0x28FF → c ≤ 0x283F) ∧
      (unicode_to_binary [0x2801, 65, 0xE000]).length = 6 * 3 ∧
        binary_to_unicode (unicode_to_binary [0x2801, 65, 0xE000]) =
          Except.ok [0x2801, 0x2800, 0x2800] := by
  refine ⟨by decide, ?_, ?_⟩
  · exact (C10_bits_total_amended [0x2801, 65, 0xE000] (by decide)).1
  · have h := (C10_bits_total_amended [0x2801, 65, 0xE000] (by decide)).2.2
    rw [h]
    rfl

/-! ### Segmenters -/

/-- Script classes of translator.py `_split_by_lang` (lines 152-166): the
token regex alternatives `[가-힣]+`, `[A-Za-z]+`, `[^가-힣A-Za-z]+`.  The
three character classes partition all characters, so `findall` returns the
maximal runs of a single class and the per-token `fullmatch` tagging agrees
with the class of the token's characters. -/
inductive PyLang
  | ko
  | en
  | other
  deriving DecidableEq

def classOf (c : Nat) : PyLang :=
  if 0xAC00 ≤ c ∧ c ≤ 0xD7A3 then .ko
  else if (65 ≤ c ∧ c ≤ 90) ∨ (97 ≤ c ∧ c ≤ 122) then .en
  else .other

/-- translator.py `_split_by_lang`: greedy left-to-right grouping of
consecutive characters of equal class; the accumulator holds the current
fragment reversed. -/
def splitByLangAux : List Nat → PyLang → List Nat → List (PyLang × List Nat)
  | [], lang, acc => [(lang, acc.reverse)]
  | c :: rest, lang, acc =>
      if classOf c = lang then splitByLangAux rest lang (c :: acc)
      else (lang, acc.reverse) :: splitByLangAux rest (classOf c) [c]

def split_by_lang : List Nat → List (PyLang × List Nat)
  | [] => []
  | c :: rest => splitByLangAux rest (classOf c) [c]

/-- translator_v5.py `LanguageType` (lines 53-60). -/
inductive LanguageType
  | korean
  | english
  | number
  | punctuation
  | mixed
  | unknown
  deriving DecidableEq

/-- translator_v5.py `LanguageDetector` character tests (lines 237-240),
checked in pattern order korean, english, number, punctuation, else
unknown.  `_is_english` is `char.isalpha() and ord(char) < 128`, i.e. the
ASCII letters; `_is_number` (`char.isdigit()`) is modelled over the ASCII
digits. -/
def classify5 (c : Nat) : LanguageType :=
  if (0xAC00 ≤ c ∧ c ≤ 0xD7AF) ∨ (0x3131 ≤ c ∧ c ≤ 0x3163) then .korean
  else if (65 ≤ c ∧ c ≤ 90) ∨ (97 ≤ c ∧ c ≤ 122) then .english
  else if 48 ≤ c ∧ c ≤ 57 then .number
  else if c ∈ ([46, 44, 33, 63, 59, 58, 40, 41, 91, 93, 123, 125, 39, 34, 45,
      43, 61, 42, 47, 92, 60, 62, 64, 35, 36, 37, 94, 38, 124, 96, 126] : List Nat) then
    .punctuation
  else .unknown

/-- translator_v5.py `segment_by_language` (lines 253-270): one pass over
the characters; on a class change push the current segment (tagged with the
previous class) and restart from the current character. -/
def segLangAux : List Nat → List Nat → Option LanguageType → List (List Nat × LanguageType)
  | [], seg, lang => if seg = [] then [] else [(seg.reverse, lang.getD .unknown)]
  | c :: rest, seg, none => segLangAux rest (c :: seg) (some (classify5 c))
  | c :: rest, seg, some l =>
      if l ≠ classify5 c then
        if seg = [] then segLangAux rest [c] (some (classify5 c))
        else (seg.reverse, l) :: segLangAux rest [c] (some (classify5 c))
      else segLangAux rest (c :: seg) (some (classify5 c))

def segment_by_language (s : List Nat) : List (List Nat × LanguageType) :=
  segLangAux s [] none

theorem splitByLangAux_join :
    ∀ (rest : List Nat) (lang : PyLang) (acc : List Nat),
      ((splitByLangAux rest lang acc).map Prod.snd).flatten = acc.reverse ++ rest := by
  intro rest
  induction rest with
  | nil => intro lang acc; simp [splitByLangAux]
  | cons c rest ih =>
      intro lang acc
      rw [splitByLangAux]
      by_cases hc : classOf c = lang
      · rw [if_pos hc, ih]
        simp
      · rw [if_neg hc]
        simp only [List.map_cons, List.flatten_cons, ih]
        simp

theorem segLangAux_join :
    ∀ (rest : List Nat) (seg : List Nat) (lang : Option LanguageType),
      ((segLangAux rest seg lang).map Prod.fst).flatten = seg.reverse ++ rest := by
  intro rest
  induction rest with
  | nil =>
      intro seg lang
      by_cases hseg : seg = [] <;> simp [segLangAux, hseg]
  | cons c rest ih =>
      intro seg lang
      cases lang with
      | none =>
          rw [segLangAux, ih]
          simp
      | some l =>
          rw [segLangAux]
          by_cases hne : l ≠ classify5 c
          · rw [if_pos hne]
            by_cases hseg : seg = []
            · rw [if_pos hseg, ih, hseg]
              simp
            · rw [if_neg hseg]
              simp only [List.map_cons, List.flatten_cons, ih]
              simp
          · rw [if_neg hne, ih]
            simp

/-- C3: both segmenters are total and lossless — concatenating the raw text
of all produced runs in emission order reproduces the input exactly, and
the empty input yields zero runs (`_split_by_lang` of translator.py and
`segment_by_language` of translator_v5.py). -/
theorem C3_segmenter_lossless (s : List Nat) :
    ((split_by_lang s).map Prod.snd).flatten = s ∧
      ((segment_by_language s).map Prod.fst).flatten = s ∧
      split_by_lang [] = [] ∧ segment_by_language [] = [] := by
  refine ⟨?_, ?_, rfl, rfl⟩
  · cases s with
    | nil => rfl
    | cons c rest =>
        show ((splitByLangAux rest (classOf c) [c]).map Prod.snd).flatten = c :: rest
        rw [splitByLangAux_join]
        rfl
  · show ((segLangAux s [] none).map Prod.fst).flatten = s
    rw [segLangAux_join]
    rfl

/-! ### Reverse contraction lookup -/

/-- Python slice `s[a:b]`. -/
def pySlice (s : List Nat) (a b : Nat) : List Nat :=
  (s.drop a).take (b - a)

/-- The contraction search loop of `braille_to_text` (translator.py lines
309-317): `for end in range(len(brl_segment), cursor, -1)`, first matching
slice wins, returning the new cursor `end` and the decoded word. -/
def longestMatchAux (revMap : List Nat → Option (List Nat)) (seg : List Nat)
    (cursor : Nat) : Nat → Option (Nat × List Nat)
  | 0 => none
  | e + 1 =>
      if e + 1 ≤ cursor then none
      else
        match revMap (pySlice seg cursor (e + 1)) with
        | some w => some (e + 1, w)
        | none => longestMatchAux revMap seg cursor e

def longestMatch (revMap : List Nat → Option (List Nat)) (seg : List Nat)
    (cursor : Nat) : Option (Nat × List Nat) :=
  longestMatchAux revMap seg cursor seg.length

/-- C5: the reverse contraction lookup tries the longest slice first — the
search window shrinks from the full remaining length down to 1 — so with
"foo" decoding from the single cell `c1` and "foobar" decoding from the two
cells `c1 c2` both in the reverse map, decoding the segment `c1 c2` from
cursor 0 selects "foobar", consuming 2 cells (new cursor 2), not "foo". -/
theorem C5_longest_match_first (revMap : List Nat → Option (List Nat))
    (c1 c2 : Nat) (w1 w2 : List Nat)
    (h2 : revMap [c1, c2] = some w2) (h1 : revMap [c1] = some w1) :
    longestMatch revMap [c1, c2] 0 = some (2, w2) := by
  show longestMatchAux revMap [c1, c2] 0 2 = some (2, w2)
  rw [longestMatchAux]
  have hslice : pySlice [c1, c2] 0 2 = [c1, c2] := rfl
  rw [if_neg (by omega), hslice, h2]

/-- Witness for C5 with a concrete two-entry reverse map ("foo" from cell
10, "foobar" from cells 10 20). -/
theorem C5_longest_match_first_witness :
    ((fun s => if s = [10, 20] then some [102, 111, 111, 98, 97, 114]
        else if s = [10] then some [102, 111, 111] else (none : Option (List Nat)))
          [10, 20] = some [102, 111, 111, 98, 97, 114]) ∧
      ((fun s => if s = [10, 20] then some [102, 111, 111, 98, 97, 114]
        else if s = [10] then some [102, 111, 111] else (none : Option (List Nat)))
          [10] = some [102, 111, 111]) ∧
      longestMatch
        (fun s => if s = [10, 20] then some [102, 111, 111, 98, 97, 114]
          else if s = [10] then some [102, 111, 111] else none)
        [10, 20] 0 = some (2, [102, 111, 111, 98, 97, 114]) :=
  ⟨rfl, rfl, C5_longest_match_first _ 10 20 [102, 111, 111] _ rfl rfl⟩

/-! ### The text-to-braille orchestrator (translator.py lines 199-250) -/

/-- Python `text.strip()`: remove leading and trailing whitespace. -/
def pyStrip (s : List Nat) : List Nat :=
  ((s.dropWhile isSpacePy).reverse.dropWhile isSpacePy).reverse

/-- Python `text.split("\n\n")` (line 207): non-overlapping left-to-right
split on the two-character separator, keeping empty pieces. -/
def splitNNAux : List Nat → List Nat → List (List Nat)
  | [], acc => [acc.reverse]
  | [c], acc => [(c :: acc).reverse]
  | c :: d :: rest, acc =>
      if c = 10 ∧ d = 10 then acc.reverse :: splitNNAux rest []
      else splitNNAux (d :: rest) (c :: acc)

def splitNN (s : List Nat) : List (List Nat) :=
  splitNNAux s []

/-- Python line-break characters recognized by `str.splitlines` ('\r\n' is
handled as one break by the scanner below). -/
def isLineBreak (c : Nat) : Bool :=
  decide (c = 10 ∨ c = 11 ∨ c = 12 ∨ c = 13 ∨ c = 28 ∨ c = 29 ∨ c = 30 ∨
    c = 133 ∨ c = 0x2028 ∨ c = 0x2029)

/-- Python `para.splitlines()` (line 211): each line break ends a line; a
trailing break adds no empty final line; empty input has no lines. -/
def pySplitlinesAux : List Nat → List Nat → List (List Nat)
  | [], acc => if acc = [] then [] else [acc.reverse]
  | [c], acc => if isLineBreak c then [acc.reverse] else [(c :: acc).reverse]
  | c :: d :: rest, acc =>
      if c = 13 ∧ d = 10 then acc.reverse :: pySplitlinesAux rest []
      else if isLineBreak c then acc.reverse :: pySplitlinesAux (d :: rest) []
      else pySplitlinesAux (d :: rest) (c :: acc)

def pySplitlines (s : List Nat) : List (List Nat) :=
  pySplitlinesAux s []

/-- Python `fragment.isupper()`: at least one cased character and no
lowercase cased character (modelled over the ASCII letters). -/
def pyIsUpper (s : List Nat) : Bool :=
  (s.any fun c => decide ((65 ≤ c ∧ c ≤ 90) ∨ (97 ≤ c ∧ c ≤ 122))) &&
    (s.all fun c => decide (¬(97 ≤ c ∧ c ≤ 122)))

def BRL_NUM_SIGN : Nat := 0x283C
def BRL_CAP : Nat := 0x2820
def BRL_NEWLINE : Nat := 0x283F
def BRL_PARAGRAPH : Nat := 0x283E

/-- translator.py `_apply_special_modes` (lines 140-150): digit-only
fragments of the "other" class get the number sign U+283C; multi-letter
all-uppercase English fragments get a doubled capital sign U+2820. -/
def apply_special_modes (lang : PyLang) (frag : List Nat) : List Nat :=
  if lang = .other ∧ pyIsDigit frag then BRL_NUM_SIGN :: frag
  else if lang = .en ∧ pyIsUpper frag ∧ frag.length > 1 then BRL_CAP :: BRL_CAP :: frag
  else frag

inductive Grade
  | g1
  | g2
  deriving DecidableEq

/-- The translation tables of translator.py `LANG_TABLE` (lines 40-44):
the "other" class reuses the English tables. -/
inductive TableId
  | koG1
  | koG2
  | enG1
  | enG2
  deriving DecidableEq

def LANG_TABLE : PyLang → Grade → TableId
  | .ko, .g1 => .koG1
  | .ko, .g2 => .koG2
  | .en, .g1 => .enG1
  | .en, .g2 => .enG2
  | .other, .g1 => .enG1
  | .other, .g2 => .enG2

/-- translator.py `BRL_SWITCH` (lines 23-27): the private-use language
switch markers. -/
def BRL_SWITCH : PyLang → Nat
  | .ko => 0xE000
  | .en => 0xE001
  | .other => 0xE002

/-- The external liblouis CLI `_run_cli` in forward mode, abstracted as an
oracle from table and text to braille or failure. -/
abbrev Cli := TableId → List Nat → Except Unit (List Nat)

/-- The grade-1 attempt of the fallback (translator.py lines 228-231): a
failing grade-1 call yields the empty string. -/
def transFragFallback (cli : Cli) (lang : PyLang) (frag : List Nat) : List Nat :=
  match cli (LANG_TABLE lang .g1) (apply_special_modes lang frag) with
  | .ok b => b
  | .error _ => []

/-- The per-fragment translation with G2-to-G1 fallback (translator.py
lines 216-231): grade 2 first; an exception, an empty result or a result
shorter than half the processed fragment falls back to grade 1. -/
def transFragBody (cli : Cli) (lang : PyLang) (frag : List Nat) : List Nat :=
  match cli (LANG_TABLE lang .g2) (apply_special_modes lang frag) with
  | .ok b =>
      if b = [] ∨ b.length < (apply_special_modes lang frag).length / 2 then
        transFragFallback cli lang frag
      else b
  | .error _ => transFragFallback cli lang frag

/-- One line (translator.py lines 213-233): for every fragment the language
switch marker is emitted, then the fragment's braille. -/
def transLine (cli : Cli) (line : List Nat) : List Nat :=
  (split_by_lang line).flatMap fun lf => BRL_SWITCH lf.1 :: transFragBody cli lf.1 lf.2

/-- One paragraph (translator.py lines 211-237): lines joined by the
newline cell U+283F. -/
def transPara (cli : Cli) (para : List Nat) : List Nat :=
  joinSep [BRL_NEWLINE] ((pySplitlines para).map (transLine cli))

/-- translator.py `text_to_braille` (lines 199-250), unicode format:
stripped text, paragraphs split on a blank line and joined by the paragraph
cell U+283E. -/
def text_to_braille (cli : Cli) (text : List Nat) : List Nat :=
  joinSep [BRL_PARAGRAPH] ((splitNN (pyStrip text)).map (transPara cli))

def isSwitchMarker (c : Nat) : Bool :=
  decide (c = 0xE000 ∨ c = 0xE001 ∨ c = 0xE002)

/-- C6 counterexample: for the input "ABC 123" `text_to_braille` emits a
language-switch marker before every run, hence two of them rather than
exactly one, and inserts no numeric-mode marker itself (the run " 123"
fails `isdigit` because of the space) — shown with a concrete translation
oracle that always answers the blank cell. -/
theorem C6_counterexample :
    ((text_to_braille (fun _ _ => Except.ok [0x2800])
        [65, 66, 67, 32, 49, 50, 51]).countP isSwitchMarker = 2) ∧
      ((text_to_braille (fun _ _ => Except.ok [0x2800])
        [65, 66, 67, 32, 49, 50, 51]).count 0x283C = 0) := by
  constructor <;> decide

theorem transFragBody_g2_ok (cli : Cli) (lang : PyLang) (frag b : List Nat)
    (h : cli (LANG_TABLE lang .g2) (apply_special_modes lang frag) = Except.ok b) :
    transFragBody cli lang frag =
      if b = [] ∨ b.length < (apply_special_modes lang frag).length / 2 then
        transFragFallback cli lang frag
      else b := by
  rw [transFragBody, h]

theorem transFragBody_g2_err (cli : Cli) (lang : PyLang) (frag : List Nat)
    (h : cli (LANG_TABLE lang .g2) (apply_special_modes lang frag) = Except.error ()) :
    transFragBody cli lang frag = transFragFallback cli lang frag := by
  rw [transFragBody, h]

theorem transFragFallback_g1_ok (cli : Cli) (lang : PyLang) (frag b : List Nat)
    (h : cli (LANG_TABLE lang .g1) (apply_special_modes lang frag) = Except.ok b) :
    transFragFallback cli lang frag = b := by
  rw [transFragFallback, h]

theorem transFragFallback_g1_err (cli : Cli) (lang : PyLang) (frag : List Nat)
    (h : cli (LANG_TABLE lang .g1) (apply_special_modes lang frag) = Except.error ()) :
    transFragFallback cli lang frag = [] := by
  rw [transFragFallback, h]

theorem transFragBody_filter (cli : Cli)
    (hcli : ∀ t s b, cli t s = Except.ok b → ∀ c ∈ b, isSwitchMarker c = false)
    (lang : PyLang) (frag : List Nat) :
    (transFragBody cli lang frag).filter isSwitchMarker = [] := by
  have hfb : (transFragFallback cli lang frag).filter isSwitchMarker = [] := by
    cases h1 : cli (LANG_TABLE lang .g1) (apply_special_modes lang frag) with
    | ok b =>
        rw [transFragFallback_g1_ok cli lang frag b h1]
        apply List.filter_eq_nil_iff.2
        intro c hc
        simp [hcli _ _ _ h1 c hc]
    | error e =>
        cases e
        rw [transFragFallback_g1_err cli lang frag h1]
        rfl
  cases h2 : cli (LANG_TABLE lang .g2) (apply_special_modes lang frag) with
  | ok b =>
      rw [transFragBody_g2_ok cli lang frag b h2]
      by_cases him : b = [] ∨ b.length < (apply_special_modes lang frag).length / 2
      · rw [if_pos him]
        exact hfb
      · rw [if_neg him]
        apply List.filter_eq_nil_iff.2
        intro c hc
        simp [hcli _ _ _ h2 c hc]
  | error e =>
      cases e
      rw [transFragBody_g2_err cli lang frag h2]
      exact hfb

/-- C6 amended: for "ABC 123", and any translation oracle whose outputs
contain no language-switch markers, `text_to_braille` emits exactly two
language-switch markers — one before each run, English (U+E001) then other
(U+E002), in that order — because a marker precedes every run, not only tag
changes; the mode encoder prepends exactly one doubled capital sign to
"ABC" and inserts no numeric-mode marker for " 123" (its leading space
fails `isdigit`; any number sign in the output would have to come from the
external translation service). -/
theorem C6_markers_amended (cli : Cli)
    (hcli : ∀ t s b, cli t s = Except.ok b → ∀ c ∈ b, isSwitchMarker c = false) :
    ((text_to_braille cli [65, 66, 67, 32, 49, 50, 51]).filter isSwitchMarker
        = [0xE001, 0xE002]) ∧
      apply_special_modes .en [65, 66, 67] = [0x2820, 0x2820, 65, 66, 67] ∧
      apply_special_modes .other [32, 49, 50, 51] = [32, 49, 50, 51] := by
  have hkey : text_to_braille cli [65, 66, 67, 32, 49, 50, 51] =
      (0xE001 :: transFragBody cli .en [65, 66, 67]) ++
        ((0xE002 :: transFragBody cli .other [32, 49, 50, 51]) ++ []) := rfl
  refine ⟨?_, rfl, rfl⟩
  rw [hkey]
  simp [List.filter_append, List.filter_cons, transFragBody_filter cli hcli,
    isSwitchMarker]

/-- Witness for C6 amended with the constant blank-cell oracle. -/
theorem C6_markers_amended_witness :
    (∀ t s b, (fun (_ : TableId) (_ : List Nat) => Except.ok (ε := Unit) [0x2800]) t s
        = Except.ok b → ∀ c ∈ b, isSwitchMarker c = false) ∧
      ((text_to_braille (fun _ _ => Except.ok [0x2800])
        [65, 66, 67, 32, 49, 50, 51]).filter isSwitchMarker = [0xE001, 0xE002]) :=
  ⟨fun _ _ b hb c hc => by
      cases hb
      simp at hc
      simp [hc, isSwitchMarker],
    (C6_markers_amended _ fun _ _ b hb c hc => by
      cases hb
      simp at hc
      simp [hc, isSwitchMarker]).1⟩

/-- C7 counterexample: a run whose grade-2 and grade-1 translations both
fail produces silent empty output with no failure record — for input "A",
the output with an always-failing oracle is just the switch marker, exactly
the same as with an oracle that succeeds with empty output, and
`text_to_braille` returns only this string (there is no report channel). -/
theorem C7_counterexample :
    text_to_braille (fun _ _ => Except.error ()) [65] = [0xE001] ∧
      text_to_braille (fun _ _ => Except.ok []) [65] = [0xE001] :=
  ⟨rfl, rfl⟩

/-- C7 amended: per run, a grade-2 failure or an implausibly short grade-2
result (empty, or shorter than half the processed fragment) falls back to
the grade-1 table of the same language; if grade 1 also fails the
orchestrator emits the empty string for that run and records nothing — no
`TranslationFailure` value exists anywhere, so a persistent failure is
indistinguishable from a successful empty translation. -/
theorem C7_fallback_amended (cliA cliB cliC : Cli) (lang : PyLang)
    (frag b b2 bb : List Nat)
    (hA2 : cliA (LANG_TABLE lang .g2) (apply_special_modes lang frag) = Except.error ())
    (hA1 : cliA (LANG_TABLE lang .g1) (apply_special_modes lang frag) = Except.ok b)
    (hB2 : cliB (LANG_TABLE lang .g2) (apply_special_modes lang frag) = Except.ok bb)
    (hBim : bb = [] ∨ bb.length < (apply_special_modes lang frag).length / 2)
    (hB1 : cliB (LANG_TABLE lang .g1) (apply_special_modes lang frag) = Except.ok b2)
    (hC2 : cliC (LANG_TABLE lang .g2) (apply_special_modes lang frag) = Except.error ())
    (hC1 : cliC (LANG_TABLE lang .g1) (apply_special_modes lang frag) = Except.error ()) :
    transFragBody cliA lang frag = b ∧ transFragBody cliB lang frag = b2 ∧
      transFragBody cliC lang frag = [] := by
  refine ⟨?_, ?_, ?_⟩
  · rw [transFragBody_g2_err cliA lang frag hA2, transFragFallback_g1_ok cliA lang frag b hA1]
  · rw [transFragBody_g2_ok cliB lang frag bb hB2, if_pos hBim,
      transFragFallback_g1_ok cliB lang frag b2 hB1]
  · rw [transFragBody_g2_err cliC lang frag hC2, transFragFallback_g1_err cliC lang frag hC1]

/-- Witness for C7 amended: the English fragment "A" with three concrete
oracles (grade-2 failure with grade-1 success; implausible empty grade-2
result with grade-1 success; both grades failing). -/
theorem C7_fallback_amended_witness :
    transFragBody (fun t _ => if t = TableId.enG2 then Except.error ()
      else Except.ok [1]) .en [65] = [1] ∧
      transFragBody (fun t _ => if t = TableId.enG2 then Except.ok []
        else Except.ok [2]) .en [65] = [2] ∧
      transFragBody (fun _ _ => Except.error ()) .en [65] = [] :=
  C7_fallback_amended
    (fun t _ => if t = TableId.enG2 then Except.error () else Except.ok [1])
    (fun t _ => if t = TableId.enG2 then Except.ok [] else Except.ok [2])
    (fun _ _ => Except.error ())
    .en [65] [1] [2] [] rfl rfl rfl (Or.inl rfl) rfl rfl rfl

/-! ### Rasterizer and recognizer (translator.py lines 342-429)

The rendering loop of `text_to_braille_image` (lines 366-387) is embedded
from the point where the braille lines are known: the canvas is white,
`rows = len(lines)`, `cols = max(len(line))`, and for every set bit of
every cell a filled disk (`cv2.circle` with thickness -1) of radius
`dot_radius` is drawn at the dot center.  A pixel is black iff it lies in
some disk.  `image_to_binary` (lines 389-429) first converts to grayscale
and thresholds with `THRESH_BINARY_INV` at 128, under which drawn black
pixels become 255 (nonzero) and the white background 0, so its sample test
`binary_img[dot_y, dot_x] != 0` is exactly the blackness predicate. -/

/-- Dot centers drawn by the rendering loop, as (x, y) pixel coordinates:
for row `r`, column `c` and bit index `i` with `bits[i] = '1'`, the center
is `(base_x + cell//4 + (i%2)*(cell//2), base_y + cell//6 + (i//2)*(cell//3))`
with `base = margin + index * (cell_size + margin)`. -/
def dotCenters (cellSize margin : Nat) (lines : List (List Nat)) : List (Nat × Nat) :=
  (List.range lines.length).flatMap fun r =>
    (List.range (lines.getD r []).length).flatMap fun c =>
      (List.range (unicode_to_binary [(lines.getD r []).getD c 0]).length).filterMap fun i =>
        if (unicode_to_binary [(lines.getD r []).getD c 0]).getD i false then
          some (margin + c * (cellSize + margin) + cellSize / 4 + i % 2 * (cellSize / 2),
            margin + r * (cellSize + margin) + cellSize / 6 + i / 2 * (cellSize / 3))
        else none

/-- Blackness of the rendered canvas at pixel (row `py`, column `px`): the
pixel lies within `dotRadius` of some drawn dot center. -/
def rasterBlack (cellSize margin dotRadius : Nat) (lines : List (List Nat))
    (py px : Nat) : Bool :=
  (dotCenters cellSize margin lines).any fun p =>
    decide ((((p.1 : Int) - (px : Int)) ^ 2 + ((p.2 : Int) - (py : Int)) ^ 2)
      ≤ ((dotRadius : Int)) ^ 2)

/-- Canvas height `rows * (cell_size + margin) + margin` (line 371). -/
def canvasH (cellSize margin : Nat) (lines : List (List Nat)) : Nat :=
  lines.length * (cellSize + margin) + margin

/-- Canvas width `cols * (cell_size + margin) + margin` where `cols` is the
maximum line length (lines 369, 372). -/
def canvasW (cellSize margin : Nat) (lines : List (List Nat)) : Nat :=
  (lines.map List.length).foldr max 0 * (cellSize + margin) + margin

/-- The six-sample inner loop of `image_to_binary` (lines 415-424): bit `i`
samples the pixel at the dot center for bit `i` of the cell whose top-left
corner is (x, y). -/
def cellBitsAt (black : Nat → Nat → Bool) (cellSize y x : Nat) : List Bool :=
  (List.range 6).map fun i =>
    black (y + cellSize / 6 + i / 2 * (cellSize / 3))
      (x + cellSize / 4 + i % 2 * (cellSize / 2))

/-- The inner `while x + cell_size <= img_w` loop of `image_to_binary`
(lines 413-426), fuelled: each iteration advances `x` by
`cell_size + margin`, so any fuel of at least `img_w + 1` covers every
iteration of the Python loop whenever `cell_size + margin ≥ 1`. -/
def scanColsAux (black : Nat → Nat → Bool) (imgW cellSize margin y : Nat) :
    Nat → Nat → List (List Bool)
  | 0, _ => []
  | fuel + 1, x =>
      if x + cellSize ≤ imgW then
        cellBitsAt black cellSize y x ::
          scanColsAux black imgW cellSize margin y fuel (x + cellSize + margin)
      else []

/-- The outer `while y + cell_size <= img_h` loop of `image_to_binary`
(lines 411-427), fuelled like the inner loop. -/
def scanRowsAux (black : Nat → Nat → Bool) (imgH imgW cellSize margin : Nat) :
    Nat → Nat → List (List Bool)
  | 0, _ => []
  | fuel + 1, y =>
      if y + cellSize ≤ imgH then
        scanColsAux black imgW cellSize margin y (imgW + 1) margin ++
          scanRowsAux black imgH imgW cellSize margin fuel (y + cellSize + margin)
      else []

/-- translator.py `image_to_binary` (lines 389-429) over the blackness
predicate of an image of the stated dimensions: the flat row-major list of
per-cell six-character bit strings. -/
def image_to_binary (black : Nat → Nat → Bool) (imgH imgW cellSize margin : Nat) :
    List (List Bool) :=
  scanRowsAux black imgH imgW cellSize margin (imgH + 1) margin

theorem u2b_single (ch : Nat) (h1 : 0x2800 ≤ ch) (h2 : ch ≤ 0x283F) :
    unicode_to_binary [ch] = format06b (ch - 0x2800) ∧
      (unicode_to_binary [ch]).length = 6 := by
  have he : unicode_to_binary [ch] = format06b (ch - 0x2800) := by
    show (if 0x2800 ≤ ch ∧ ch ≤ 0x28FF then format06b (ch - 0x2800)
      else List.replicate 6 false) ++ [] = _
    rw [if_pos ⟨h1, by omega⟩, List.append_nil]
  exact ⟨he, by rw [he, (format06b_spec (ch - 0x2800) (by omega)).1]⟩

theorem map_range_getD {α : Type} (l : List α) (d : α) :
    ((List.range l.length).map fun i => l.getD i d) = l := by
  induction l with
  | nil => rfl
  | cons a t ih =>
      rw [List.length_cons, List.range_succ_eq_map, List.map_cons, List.map_map]
      have hfun : ((fun i => (a :: t).getD i d) ∘ Nat.succ) =
          fun i => t.getD i d := rfl
      rw [hfun, ih]
      rfl

theorem getD_mem {α : Type} (l : List α) (n : Nat) (d : α) (h : n < l.length) :
    l.getD n d ∈ l := by
  rw [List.getD_eq_getElem?_getD, List.getElem?_eq_getElem h]
  exact List.getElem_mem h

theorem foldr_max_const (lines : List (List Nat)) (cols : Nat)
    (hne : lines ≠ []) (hrect : ∀ l ∈ lines, l.length = cols) :
    (lines.map List.length).foldr max 0 = cols := by
  induction lines with
  | nil => exact absurd rfl hne
  | cons l ls ih =>
      have hl : l.length = cols := hrect l (List.mem_cons_self l ls)
      cases ls with
      | nil => simp [hl]
      | cons l2 ls2 =>
          have := ih (by simp) fun r hr => hrect r (List.mem_cons_of_mem l hr)
          simp only [List.map_cons, List.foldr_cons] at this ⊢
          rw [this, hl, Nat.max_self]

theorem mem_dotCenters (cellSize margin : Nat) (lines : List (List Nat)) (p : Nat × Nat) :
    p ∈ dotCenters cellSize margin lines ↔
      ∃ r c i, r < lines.length ∧ c < (lines.getD r []).length ∧
        i < (unicode_to_binary [(lines.getD r []).getD c 0]).length ∧
        (unicode_to_binary [(lines.getD r []).getD c 0]).getD i false = true ∧
        p = (margin + c * (cellSize + margin) + cellSize / 4 + i % 2 * (cellSize / 2),
          margin + r * (cellSize + margin) + cellSize / 6 + i / 2 * (cellSize / 3)) := by
  rw [dotCenters]
  simp only [List.mem_flatMap, List.mem_range, List.mem_filterMap,
    Option.ite_none_right_eq_some, Option.some.injEq]
  constructor
  · rintro ⟨r, hr, c, hc, i, hi, hbit, hp⟩
    exact ⟨r, c, i, hr, hc, hi, hbit, hp.symm⟩
  · rintro ⟨r, c, i, hr, hc, hi, hbit, hp⟩
    exact ⟨r, hr, c, hc, i, hi, hbit, hp.symm⟩

theorem sq_sum_gt_36 (A B b : Int) (hb : 7 ≤ b) (h : b ≤ B ∨ B ≤ -b)
    (hle : A ^ 2 + B ^ 2 ≤ 36) : False := by
  have h49 : 49 ≤ B ^ 2 := by rcases h with h | h <;> nlinarith
  nlinarith [sq_nonneg A]

/-- The sample taken by the recognizer at the dot position (r, c, i) of the
canvas geometry cellSize=40, margin=20, dotRadius=6 sees black exactly when
bit `i` of cell (r, c) is set: the sample point coincides with that dot's
center, and every other drawn center is at distance at least 13 (> 6). -/
theorem rasterBlack_sample (lines : List (List Nat)) (rows cols : Nat)
    (hrows : lines.length = rows) (hrect : ∀ l ∈ lines, l.length = cols)
    (hvalid : ∀ l ∈ lines, ∀ ch ∈ l, 0x2800 ≤ ch ∧ ch ≤ 0x283F)
    (r c i : Nat) (hr : r < rows) (hc : c < cols) (hi : i < 6)
    (py px : Nat)
    (hpy : py = 20 + r * 60 + 6 + i / 2 * 13)
    (hpx : px = 20 + c * 60 + 10 + i % 2 * 20) :
    rasterBlack 40 20 6 lines py px =
      (unicode_to_binary [(lines.getD r []).getD c 0]).getD i false := by
  have hrlen : r < lines.length := by omega
  have hline : lines.getD r [] ∈ lines := getD_mem _ _ _ hrlen
  have hclen : c < (lines.getD r []).length := by rw [hrect _ hline]; exact hc
  have hcell : (lines.getD r []).getD c 0 ∈ lines.getD r [] := getD_mem _ _ _ hclen
  have hchv := hvalid _ hline _ hcell
  have hlen6 := (u2b_single _ hchv.1 hchv.2).2
  subst hpx hpy
  cases hbit : (unicode_to_binary [(lines.getD r []).getD c 0]).getD i false with
  | true =>
      rw [rasterBlack]
      apply List.any_eq_true.2
      refine ⟨(20 + c * (40 + 20) + 40 / 4 + i % 2 * (40 / 2),
        20 + r * (40 + 20) + 40 / 6 + i / 2 * (40 / 3)), ?_, ?_⟩
      · exact (mem_dotCenters _ _ _ _).2
          ⟨r, c, i, hrlen, hclen, by omega, hbit, rfl⟩
      · apply decide_eq_true
        have e1 : ((20 + c * (40 + 20) + 40 / 4 + i % 2 * (40 / 2) : Nat) : Int) -
            ((20 + c * 60 + 10 + i % 2 * 20 : Nat) : Int) = 0 := by omega
        have e2 : ((20 + r * (40 + 20) + 40 / 6 + i / 2 * (40 / 3) : Nat) : Int) -
            ((20 + r * 60 + 6 + i / 2 * 13 : Nat) : Int) = 0 := by omega
        show (((20 + c * (40 + 20) + 40 / 4 + i % 2 * (40 / 2) : Nat) : Int) -
            ((20 + c * 60 + 10 + i % 2 * 20 : Nat) : Int)) ^ 2 +
          (((20 + r * (40 + 20) + 40 / 6 + i / 2 * (40 / 3) : Nat) : Int) -
            ((20 + r * 60 + 6 + i / 2 * 13 : Nat) : Int)) ^ 2 ≤ ((6 : Nat) : Int) ^ 2
        rw [e1, e2]
        norm_num
  | false =>
      rw [rasterBlack]
      apply List.any_eq_false.2
      intro p hp
      rw [mem_dotCenters] at hp
      obtain ⟨r', c', i', hr', hc', hi', hbit', hpeq⟩ := hp
      have hline' : lines.getD r' [] ∈ lines := getD_mem _ _ _ hr'
      have hcell' : (lines.getD r' []).getD c' 0 ∈ lines.getD r' [] := getD_mem _ _ _ hc'
      have hchv' := hvalid _ hline' _ hcell'
      have hlen6' := (u2b_single _ hchv'.1 hchv'.2).2
      have hi6' : i' < 6 := by rw [hlen6'] at hi'; exact hi'
      have hne : ¬(r' = r ∧ c' = c ∧ i' = i) := by
        rintro ⟨rfl, rfl, rfl⟩
        rw [hbit] at hbit'
        exact Bool.false_ne_true hbit'
      obtain ⟨hp1, hp2⟩ : p.1 = 20 + c' * (40 + 20) + 40 / 4 + i' % 2 * (40 / 2) ∧
          p.2 = 20 + r' * (40 + 20) + 40 / 6 + i' / 2 * (40 / 3) := by
        rw [hpeq]
        exact ⟨rfl, rfl⟩
      simp only [decide_eq_true_eq]
      intro hdist
      rw [hp1, hp2] at hdist
      have h36 : (((6 : Nat) : Int)) ^ 2 = 36 := by norm_num
      rw [h36] at hdist
      by_cases hx : c' = c ∧ i' % 2 = i % 2
      · have hy : r' ≠ r ∨ i' / 2 ≠ i / 2 := by
          rcases Decidable.em (r' = r) with h1 | h1
          · right
            intro h2
            exact hne ⟨h1, hx.1, by omega⟩
          · left
            exact h1
        have hA : (13 : Int) ≤
              ((20 + r' * (40 + 20) + 40 / 6 + i' / 2 * (40 / 3) : Nat) : Int) -
                ((20 + r * 60 + 6 + i / 2 * 13 : Nat) : Int) ∨
            ((20 + r' * (40 + 20) + 40 / 6 + i' / 2 * (40 / 3) : Nat) : Int) -
                ((20 + r * 60 + 6 + i / 2 * 13 : Nat) : Int) ≤ -13 := by
          have hq : i / 2 = 0 ∨ i / 2 = 1 ∨ i / 2 = 2 := by omega
          have hq' : i' / 2 = 0 ∨ i' / 2 = 1 ∨ i' / 2 = 2 := by omega
          rcases hy with h | h <;> rcases hq with h1 | h1 | h1 <;>
            rcases hq' with h2 | h2 | h2 <;> omega
        exact sq_sum_gt_36 _ _ 13 (by norm_num) hA hdist
      · have hx' : c' ≠ c ∨ i' % 2 ≠ i % 2 := by
          rcases Decidable.em (c' = c) with h1 | h1
          · right
            intro h2
            exact hx ⟨h1, h2⟩
          · left
            exact h1
        have hA : (20 : Int) ≤
              ((20 + c' * (40 + 20) + 40 / 4 + i' % 2 * (40 / 2) : Nat) : Int) -
                ((20 + c * 60 + 10 + i % 2 * 20 : Nat) : Int) ∨
            ((20 + c' * (40 + 20) + 40 / 4 + i' % 2 * (40 / 2) : Nat) : Int) -
                ((20 + c * 60 + 10 + i % 2 * 20 : Nat) : Int) ≤ -20 := by
          have hm : i % 2 = 0 ∨ i % 2 = 1 := by omega
          have hm' : i' % 2 = 0 ∨ i' % 2 = 1 := by omega
          rcases hx' with h | h <;> rcases hm with h1 | h1 <;>
            rcases hm' with h2 | h2 <;> omega
        have hdist' :
            (((20 + r' * (40 + 20) + 40 / 6 + i' / 2 * (40 / 3) : Nat) : Int) -
                ((20 + r * 60 + 6 + i / 2 * 13 : Nat) : Int)) ^ 2 +
              (((20 + c' * (40 + 20) + 40 / 4 + i' % 2 * (40 / 2) : Nat) : Int) -
                ((20 + c * 60 + 10 + i % 2 * 20 : Nat) : Int)) ^ 2 ≤ 36 := by
          linarith [hdist]
        exact sq_sum_gt_36 _ _ 20 (by norm_num) hA hdist'

theorem cellBitsAt_spec (lines : List (List Nat)) (rows cols : Nat)
    (hrows : lines.length = rows) (hrect : ∀ l ∈ lines, l.length = cols)
    (hvalid : ∀ l ∈ lines, ∀ ch ∈ l, 0x2800 ≤ ch ∧ ch ≤ 0x283F)
    (r c : Nat) (hr : r < rows) (hc : c < cols) :
    cellBitsAt (rasterBlack 40 20 6 lines) 40 (20 + 60 * r) (20 + 60 * c) =
      unicode_to_binary [(lines.getD r []).getD c 0] := by
  have hrlen : r < lines.length := by omega
  have hline := getD_mem lines r [] hrlen
  have hclen : c < (lines.getD r []).length := by rw [hrect _ hline]; exact hc
  have hcell := getD_mem (lines.getD r []) c 0 hclen
  have hchv := hvalid _ hline _ hcell
  have hlen6 := (u2b_single _ hchv.1 hchv.2).2
  rw [cellBitsAt]
  conv_rhs =>
    rw [← map_range_getD (unicode_to_binary [(lines.getD r []).getD c 0]) false, hlen6]
  apply List.map_congr_left
  intro i hiR
  have hi : i < 6 := List.mem_range.1 hiR
  exact rasterBlack_sample lines rows cols hrows hrect hvalid r c i hr hc hi
    _ _ (by omega) (by omega)

theorem scanColsAux_spec (black : Nat → Nat → Bool) (cols y : Nat) :
    ∀ k j fuel, j + k = cols → k + 1 ≤ fuel →
      scanColsAux black (cols * 60 + 20) 40 20 y fuel (20 + 60 * j) =
        (List.range' j k).map fun c => cellBitsAt black 40 y (20 + 60 * c) := by
  intro k
  induction k with
  | zero =>
      intro j fuel hj hf
      cases fuel with
      | zero => omega
      | succ f =>
          rw [scanColsAux, if_neg (by omega)]
          rfl
  | succ k ih =>
      intro j fuel hj hf
      cases fuel with
      | zero => omega
      | succ f =>
          rw [scanColsAux, if_pos (by omega)]
          rw [show 20 + 60 * j + 40 + 20 = 20 + 60 * (j + 1) from by ring]
          rw [ih (j + 1) f (by omega) (by omega), List.range'_succ]
          rfl

theorem scanRowsAux_spec (black : Nat → Nat → Bool) (rows cols : Nat) :
    ∀ k j fuel, j + k = rows → k + 1 ≤ fuel →
      scanRowsAux black (rows * 60 + 20) (cols * 60 + 20) 40 20 fuel (20 + 60 * j) =
        (List.range' j k).flatMap fun r =>
          (List.range' 0 cols).map fun c => cellBitsAt black 40 (20 + 60 * r) (20 + 60 * c) := by
  intro k
  induction k with
  | zero =>
      intro j fuel hj hf
      cases fuel with
      | zero => omega
      | succ f =>
          rw [scanRowsAux, if_neg (by omega)]
          rfl
  | succ k ih =>
      intro j fuel hj hf
      cases fuel with
      | zero => omega
      | succ f =>
          rw [scanRowsAux, if_pos (by omega)]
          have hcols := scanColsAux_spec black cols (20 + 60 * j) cols 0
            (cols * 60 + 20 + 1) (by omega) (by omega)
          rw [show 20 + 60 * 0 = 20 from rfl] at hcols
          rw [hcols]
          rw [show 20 + 60 * j + 40 + 20 = 20 + 60 * (j + 1) from by ring]
          rw [ih (j + 1) f (by omega) (by omega), List.range'_succ]
          rfl

theorem flatMap_congr_left {α β : Type} (l : List α) (f g : α → List β)
    (h : ∀ a ∈ l, f a = g a) : l.flatMap f = l.flatMap g := by
  induction l with
  | nil => rfl
  | cons a t ih =>
      rw [List.flatMap_cons, List.flatMap_cons, h a (List.mem_cons_self a t),
        ih fun b hb => h b (List.mem_cons_of_mem a hb)]

theorem flatMap_range_getD {α β : Type} (l : List α) (d : α) (g : α → List β) :
    ((List.range l.length).flatMap fun i => g (l.getD i d)) = l.flatMap g := by
  have h1 : ((List.range l.length).map fun i => l.getD i d).flatMap g =
      ((List.range l.length).flatMap fun i => g (l.getD i d)) :=
    List.flatMap_map _ _ _
  rw [← h1, map_range_getD]

/-- C2: rendering a rectangular CellSequence of at least 2 rows and 3
columns of valid six-dot cells with the geometry cellSize=40, margin=20,
dotRadius=6 of `text_to_braille_image`, and recognizing the resulting
canvas with `image_to_binary` at the same cellSize and margin (threshold
128), reproduces the per-cell bit patterns of the sequence exactly, in
reading order. -/
theorem C2_raster_recognizer_roundtrip (lines : List (List Nat)) (rows cols : Nat)
    (hrows : lines.length = rows) (hrect : ∀ l ∈ lines, l.length = cols)
    (hvalid : ∀ l ∈ lines, ∀ ch ∈ l, 0x2800 ≤ ch ∧ ch ≤ 0x283F)
    (hr2 : 2 ≤ rows) (hc3 : 3 ≤ cols) :
    image_to_binary (rasterBlack 40 20 6 lines) (canvasH 40 20 lines)
        (canvasW 40 20 lines) 40 20 =
      lines.flatMap fun l => l.map fun ch => unicode_to_binary [ch] := by
  have hne : lines ≠ [] := by
    intro h
    rw [h] at hrows
    simp at hrows
    omega
  have hW : canvasW 40 20 lines = cols * 60 + 20 := by
    rw [canvasW, foldr_max_const lines cols hne hrect]
  have hH : canvasH 40 20 lines = rows * 60 + 20 := by
    rw [canvasH, hrows]
  rw [image_to_binary, hW, hH]
  have hmain := scanRowsAux_spec (rasterBlack 40 20 6 lines) rows cols rows 0
    (rows * 60 + 20 + 1) (by omega) (by omega)
  rw [show 20 + 60 * 0 = 20 from rfl] at hmain
  rw [hmain]
  have hcell : ∀ r ∈ List.range' 0 rows,
      ((List.range' 0 cols).map fun c =>
          cellBitsAt (rasterBlack 40 20 6 lines) 40 (20 + 60 * r) (20 + 60 * c)) =
        (lines.getD r []).map fun ch => unicode_to_binary [ch] := by
    intro r hrR
    have hr : r < rows := by
      have := List.mem_range'_1.1 hrR
      omega
    have hinner : ∀ c ∈ List.range' 0 cols,
        cellBitsAt (rasterBlack 40 20 6 lines) 40 (20 + 60 * r) (20 + 60 * c) =
          unicode_to_binary [(lines.getD r []).getD c 0] := by
      intro c hcR
      have hc : c < cols := by
        have := List.mem_range'_1.1 hcR
        omega
      exact cellBitsAt_spec lines rows cols hrows hrect hvalid r c hr hc
    rw [List.map_congr_left hinner, ← List.range_eq_range']
    have hllen : (lines.getD r []).length = cols :=
      hrect _ (getD_mem lines r [] (by omega))
    rw [← hllen]
    have := map_range_getD (lines.getD r []) 0
    calc ((List.range (lines.getD r []).length).map fun c =>
          unicode_to_binary [(lines.getD r []).getD c 0])
        = (((List.range (lines.getD r []).length).map fun c =>
            (lines.getD r []).getD c 0).map fun ch => unicode_to_binary [ch]) := by
          rw [List.map_map]
          rfl
      _ = (lines.getD r []).map fun ch => unicode_to_binary [ch] := by rw [this]
  rw [flatMap_congr_left _ _ _ hcell, ← List.range_eq_range', ← hrows]
  exact flatMap_range_getD lines [] fun l => l.map fun ch => unicode_to_binary [ch]

/-- Witness for C2 at a concrete 2-row, 3-column grid of cells. -/
theorem C2_raster_recognizer_roundtrip_witness :
    ([[0x2801, 0x2802, 0x2803], [0x2804, 0x2805, 0x283F]].length = 2 ∧
      (∀ l ∈ [[0x2801, 0x2802, 0x2803], [0x2804, 0x2805, 0x283F]], l.length = 3) ∧
      (∀ l ∈ [[0x2801, 0x2802, 0x2803], [0x2804, 0x2805, 0x283F]],
        ∀ ch ∈ l, 0x2800 ≤ ch ∧ ch ≤ 0x283F)) ∧
      image_to_binary
          (rasterBlack 40 20 6 [[0x2801, 0x2802, 0x2803], [0x2804, 0x2805, 0x283F]])
          (canvasH 40 20 [[0x2801, 0x2802, 0x2803], [0x2804, 0x2805, 0x283F]])
          (canvasW 40 20 [[0x2801, 0x2802, 0x2803], [0x2804, 0x2805, 0x283F]]) 40 20 =
        [[0x2801, 0x2802, 0x2803], [0x2804, 0x2805, 0x283F]].flatMap
          fun l => l.map fun ch => unicode_to_binary [ch] :=
  ⟨by decide,
    C2_raster_recognizer_roundtrip [[0x2801, 0x2802, 0x2803], [0x2804, 0x2805, 0x283F]]
      2 3 rfl (by decide) (by decide) (by decide) (by decide)⟩

end Braille
